import Mathlib

/-!
Shallow embedding of the network simulation engine
(`backend/app/core/simulation.py`) of node-state-pulse.

Machine reals (probabilities, latencies, delays) are modelled as `ℚ`;
`random.random()` draws and `random.choice` picks are threaded explicitly
as input streams, so every function is a pure, executable translation of
the Python source.
-/

namespace Pulse

/-- A node snapshot (`app.models.database.Node`), the fields the engine reads. -/
structure Node where
  id : Int
  name : String
  node_type : String
  status : String
  x_position : ℚ
  y_position : ℚ
deriving DecidableEq, Repr

/-- A connection snapshot (`app.models.database.Connection`), the fields the engine reads. -/
structure Connection where
  id : Int
  source_node_id : Int
  destination_node_id : Int
  connection_type : String
  bandwidth_mbps : ℚ
  latency_ms : ℚ
  status : String
deriving DecidableEq, Repr

/-- A message snapshot (`app.models.database.Message`), the fields the engine reads. -/
structure Message where
  id : Int
  source_node_id : Int
  destination_node_id : Int
  packet_size_bytes : Int
deriving DecidableEq, Repr

/-- Anomaly kinds (`AnomalyType`). -/
inductive AnomalyType where
  | packet_loss | delay | corruption | wrong_delivery | out_of_order | connection_loss
deriving DecidableEq, Repr

/-- An anomaly rule (`app.models.database.Anomaly`), the fields the engine reads.
`parameters` is the JSON parameter map; the engine only ever reads numeric
entries (`parameters.get("additional_delay_ms", 1000)`), so it is modelled as a
string-keyed association list of rationals. -/
structure Anomaly where
  id : Int
  anomaly_type : AnomalyType
  affected_node_id : Option Int
  probability : ℚ
  parameters : List (String × ℚ)
  is_active : Bool
deriving DecidableEq, Repr

/-- Python `dict.get(key, default)` on an association list. -/
def dictGet (l : List (String × ℚ)) (k : String) (default : ℚ) : ℚ :=
  match l.find? (fun kv => kv.1 == k) with
  | some kv => kv.2
  | none => default

/-- `settings.DEFAULT_PACKET_DELAY_MS` (`app.core.config`). -/
def DEFAULT_PACKET_DELAY_MS : ℚ := 100

/-- Edge attributes stored by `NetworkGraph.build_from_session_data` on each edge. -/
structure EdgeAttrs where
  connection_id : Int
  bandwidth : ℚ
  latency : ℚ
  connection_type : String
deriving DecidableEq, Repr

/-- Vertex attributes stored by `add_node` for each node snapshot. -/
structure NodeAttrs where
  name : String
  node_type : String
  status : String
  x : ℚ
  y : ℚ
deriving DecidableEq, Repr

/-- The `networkx.Graph` underlying `NetworkGraph`: vertex ids in insertion
order, vertex attributes for vertices added via `add_node`, and an undirected
edge list with attributes (one entry per unordered pair, as in `nx.Graph`). -/
structure Graph where
  nodeIds : List Int
  attrs : List (Int × NodeAttrs)
  edgeList : List (Int × Int × EdgeAttrs)
deriving DecidableEq, Repr

/-- `nx.Graph.add_node`: inserts the id if absent (attribute update keeps position). -/
def addNodeId (l : List Int) (i : Int) : List Int :=
  if i ∈ l then l else l ++ [i]

/-- `nx.Graph.add_node` with attributes, as done for each node snapshot. -/
def addNode (g : Graph) (i : Int) (a : NodeAttrs) : Graph :=
  { g with
    nodeIds := addNodeId g.nodeIds i,
    attrs := if g.attrs.any (fun kv => kv.1 == i)
             then g.attrs.map (fun kv => if kv.1 = i then (i, a) else kv)
             else g.attrs ++ [(i, a)] }

/-- Whether the undirected edge {u, v} is present (`nx.Graph.has_edge`). -/
def hasEdgePair (es : List (Int × Int × EdgeAttrs)) (u v : Int) : Bool :=
  es.any (fun e => (e.1 == u && e.2.1 == v) || (e.1 == v && e.2.1 == u))

/-- `nx.Graph.add_edge`: adds missing endpoints as attribute-less vertices and
inserts the undirected edge, overwriting attributes if the pair already exists. -/
def addEdge (g : Graph) (u v : Int) (a : EdgeAttrs) : Graph :=
  { g with
    nodeIds := addNodeId (addNodeId g.nodeIds u) v,
    edgeList :=
      if hasEdgePair g.edgeList u v then
        g.edgeList.map (fun e =>
          if (e.1 = u ∧ e.2.1 = v) ∨ (e.1 = v ∧ e.2.1 = u) then (e.1, e.2.1, a) else e)
      else g.edgeList ++ [(u, v, a)] }

/-- One node-loop step of `build_from_session_data`: `add_node` with the
snapshot's attributes. -/
def nodeStep (g : Graph) (n : Node) : Graph :=
  addNode g n.id
    { name := n.name, node_type := n.node_type, status := n.status,
      x := n.x_position, y := n.y_position }

/-- One connection-loop step of `build_from_session_data`: `add_edge` for an
active connection, skip otherwise. -/
def connStep (g : Graph) (c : Connection) : Graph :=
  if c.status = "active" then
    addEdge g c.source_node_id c.destination_node_id
      { connection_id := c.id, bandwidth := c.bandwidth_mbps,
        latency := c.latency_ms, connection_type := c.connection_type }
  else g

/-- `NetworkGraph.build_from_session_data`: every node snapshot becomes an
attributed vertex; every connection with `status == "active"` becomes an edge
carrying connection id, bandwidth, latency and type. -/
def build_from_session_data (nodes : List Node) (connections : List Connection) : Graph :=
  connections.foldl connStep
    (nodes.foldl nodeStep { nodeIds := [], attrs := [], edgeList := [] })

/-- Adjacency list of a vertex, read off the edge list. -/
def neighbors (g : Graph) (u : Int) : List Int :=
  g.edgeList.foldr
    (fun e acc =>
      if e.1 = u then e.2.1 :: acc
      else if e.2.1 = u then e.1 :: acc
      else acc) []

/-- `NetworkGraph.get_connection_info`: edge attributes of {a, b}, or `none`. -/
def get_connection_info (g : Graph) (a b : Int) : Option EdgeAttrs :=
  match g.edgeList.find? (fun e => (e.1 == a && e.2.1 == b) || (e.1 == b && e.2.1 == a)) with
  | some e => some e.2.2
  | none => none

/-- Breadth-first search worklist step for `nx.shortest_path` (unweighted):
the frontier holds reversed paths; visited marks enqueued vertices. -/
def bfsAux (g : Graph) (dst : Int) :
    Nat → List (List Int) → List Int → Option (List Int)
  | 0, _, _ => none
  | _ + 1, [], _ => none
  | fuel + 1, [] :: rest, visited => bfsAux g dst fuel rest visited
  | fuel + 1, (u :: p) :: rest, visited =>
      if u = dst then some (u :: p).reverse
      else
        let ns := (neighbors g u).filter (fun v => !(visited.contains v))
        bfsAux g dst fuel (rest ++ ns.map (fun v => v :: u :: p)) (visited ++ ns)

/-- `NetworkGraph.find_shortest_path`: unweighted BFS shortest path; `none`
when an endpoint is absent (`NodeNotFound`) or unreachable (`NetworkXNoPath`). -/
def find_shortest_path (g : Graph) (s d : Int) : Option (List Int) :=
  if s ∈ g.nodeIds ∧ d ∈ g.nodeIds then
    bfsAux g d ((g.nodeIds.length + 1) * (g.edgeList.length + 1) + 1) [[s]] [s]
  else none

/-- Depth-first enumeration of the simple paths from `cur` to `dst` with at
most `fuel` edges, avoiding `visited ∪ \x7bcur\x7d` (`nx.all_simple_paths`;
for `cur = dst` the trivial path `[cur]` is produced, as in networkx 3.x). -/
def pathsAux (g : Graph) (dst : Int) : Int → List Int → Nat → List (List Int)
  | cur, _, 0 => if cur = dst then [[cur]] else []
  | cur, visited, fuel + 1 =>
    if cur = dst then [[cur]]
    else
      ((neighbors g cur).filter (fun v => !(visited.contains v) && v != cur)).flatMap
        (fun v => (pathsAux g dst v (cur :: visited) fuel).map (fun p => cur :: p))

/-- `NetworkGraph.find_all_paths`: up to `max_paths` simple paths with cutoff
10 edges, sorted ascending by length (stable, as Python `list.sort(key=len)`);
`[]` when an endpoint is absent (`NodeNotFound`) or no path exists. -/
def find_all_paths (g : Graph) (s d : Int) (max_paths : Nat := 3) : List (List Int) :=
  if s ∈ g.nodeIds ∧ d ∈ g.nodeIds then
    ((pathsAux g d s [] 10).insertionSort (fun p q => p.length ≤ q.length)).take max_paths
  else []

/-!  Anomaly engine (`AnomalyEngine`).  -/

/-- The explicit random sources: `draws` feeds `random.random()` (uniform
values in [0,1)), `choices` feeds `random.choice` as an index into the
candidate list. -/
structure Rand where
  draws : List ℚ
  choices : List Nat
deriving DecidableEq, Repr

/-- Take the next `random.random()` value off the stream. -/
def popDraw (r : Rand) : ℚ × Rand :=
  match r.draws with
  | [] => (0, r)
  | d :: ds => (d, { r with draws := ds })

/-- Take the next `random.choice` index off the stream. -/
def popChoice (r : Rand) : Nat × Rand :=
  match r.choices with
  | [] => (0, r)
  | c :: cs => (c, { r with choices := cs })

/-- `random.choice(l)` picking the element at the streamed index. -/
def randomChoice (l : List Int) (n : Nat) : Int :=
  l.getD (n % l.length) 0

/-- `AnomalyEngine.should_apply_anomaly`: `random.random() < anomaly.probability`. -/
def should_apply_anomaly (a : Anomaly) (r : Rand) : Bool × Rand :=
  (decide ((popDraw r).1 < a.probability), (popDraw r).2)

/-- One step of the dict comprehension `{a.id: a for a in anomalies if a.is_active}`:
an existing key keeps its position and takes the new value; a new key is appended. -/
def dictInsertAnomaly (l : List (Int × Anomaly)) (a : Anomaly) : List (Int × Anomaly) :=
  if l.any (fun kv => kv.1 == a.id) then
    l.map (fun kv => if kv.1 = a.id then (a.id, a) else kv)
  else l ++ [(a.id, a)]

/-- `AnomalyEngine.__init__`: the values of `{a.id: a for a in anomalies if a.is_active}`,
in dict (insertion) order — the list every `apply_*` scan iterates over. -/
def anomalyDict (anomalies : List Anomaly) : List Anomaly :=
  ((anomalies.filter (fun a => a.is_active)).foldl dictInsertAnomaly []).map (fun kv => kv.2)

/-- The scan guard shared by all `apply_*` methods: kind matches and the rule's
scope is network-wide (`affected_node_id is None`) or the current node. -/
def matchesKind (a : Anomaly) (k : AnomalyType) (current_node_id : Int) : Bool :=
  a.anomaly_type == k &&
    (a.affected_node_id == none || a.affected_node_id == some current_node_id)

/-- `AnomalyEngine.apply_packet_loss`: first firing packet-loss rule in scope
causes loss, short-circuiting the scan. -/
def apply_packet_loss (rules : List Anomaly) (current_node_id : Int) (r : Rand) :
    Bool × Rand :=
  match rules with
  | [] => (false, r)
  | a :: rest =>
    if matchesKind a .packet_loss current_node_id then
      if (should_apply_anomaly a r).1 then (true, (should_apply_anomaly a r).2)
      else apply_packet_loss rest current_node_id (should_apply_anomaly a r).2
    else apply_packet_loss rest current_node_id r

/-- `AnomalyEngine.apply_delay`: the first firing delay rule in scope adds its
`additional_delay_ms` parameter (default 1000) to the base delay; no rule
firing returns the base delay unchanged. -/
def apply_delay (rules : List Anomaly) (current_node_id : Int) (base_delay : ℚ)
    (r : Rand) : ℚ × Rand :=
  match rules with
  | [] => (base_delay, r)
  | a :: rest =>
    if matchesKind a .delay current_node_id then
      if (should_apply_anomaly a r).1 then
        (base_delay + dictGet a.parameters "additional_delay_ms" 1000,
         (should_apply_anomaly a r).2)
      else apply_delay rest current_node_id base_delay (should_apply_anomaly a r).2
    else apply_delay rest current_node_id base_delay r

/-- `AnomalyEngine.apply_corruption`: same scan as packet loss, independent draws. -/
def apply_corruption (rules : List Anomaly) (current_node_id : Int) (r : Rand) :
    Bool × Rand :=
  match rules with
  | [] => (false, r)
  | a :: rest =>
    if matchesKind a .corruption current_node_id then
      if (should_apply_anomaly a r).1 then (true, (should_apply_anomaly a r).2)
      else apply_corruption rest current_node_id (should_apply_anomaly a r).2
    else apply_corruption rest current_node_id r

/-- `AnomalyEngine.apply_wrong_delivery`: the first firing wrong-delivery rule
in scope returns `random.choice(available_nodes)`. -/
def apply_wrong_delivery (rules : List Anomaly) (current_node_id : Int)
    (available_nodes : List Int) (r : Rand) : Option Int × Rand :=
  match rules with
  | [] => (none, r)
  | a :: rest =>
    if matchesKind a .wrong_delivery current_node_id then
      if (should_apply_anomaly a r).1 then
        (some (randomChoice available_nodes (popChoice (should_apply_anomaly a r).2).1),
         (popChoice (should_apply_anomaly a r).2).2)
      else apply_wrong_delivery rest current_node_id available_nodes (should_apply_anomaly a r).2
    else apply_wrong_delivery rest current_node_id available_nodes r

/-!  Simulation events (`manager.broadcast_to_session` payloads; timestamps,
which carry no logic, are omitted).  -/

/-- One broadcast event, carrying the payload fields the engine computes. -/
inductive Event where
  | simulation_started (simulation_id : String) (message_count : Nat)
  | packet_failed (message_id : Int) (reason : String)
  | packet_sent (message_id source_node_id destination_node_id : Int)
      (path : List Int) (packet_size : Int)
  | packet_arrived (message_id current_node_id from_node_id : Int)
      (is_corrupted : Bool) (delay_ms : ℚ)
  | packet_lost (message_id lost_at_node_id : Int)
  | packet_misdelivered (message_id intended_destination actual_destination : Int)
  | packet_delivered (message_id destination_node_id : Int) (path_taken : List Int)
  | simulation_completed (simulation_id : String)
  | simulation_error (simulation_id : String) (error : String)
deriving DecidableEq, Repr

/-- The kind tag of an event. -/
inductive EKind where
  | started | failed | sent | arrived | lost | misdelivered | delivered | completed | error
deriving DecidableEq, Repr

/-- Kind of an event. -/
def Event.kind : Event → EKind
  | .simulation_started _ _ => .started
  | .packet_failed _ _ => .failed
  | .packet_sent _ _ _ _ _ => .sent
  | .packet_arrived _ _ _ _ _ => .arrived
  | .packet_lost _ _ => .lost
  | .packet_misdelivered _ _ _ => .misdelivered
  | .packet_delivered _ _ _ => .delivered
  | .simulation_completed _ => .completed
  | .simulation_error _ _ => .error

/-- A terminal per-message event kind (delivered, lost, misdelivered, failed). -/
def EKind.isTerminal : EKind → Bool
  | .failed | .lost | .misdelivered | .delivered => true
  | _ => false

/-!  Packet walker (`SimulationEngine._simulate_message`).  The cooperative
cancellation flag read `self.active_simulations.get(simulation_id, False)` is
modelled as the oracle `alive`, indexed by the hop counter `i` at which the
read happens.  -/

/-- The hop loop `for i in range(len(chosen_path) - 1)` of `_simulate_message`.
Returns the events it emits, the remaining randomness, and whether it hit the
`return` in the packet-loss branch (`true`) — a `break` on the cancellation
flag and normal completion both fall through (`false`). -/
def hopLoop (g : Graph) (rules : List Anomaly) (msg : Message)
    (chosen_path : List Int) (alive : Nat → Bool) :
    Nat → Nat → Rand → List Event × Rand × Bool
  | _, 0, r => ([], r, false)
  | i, rem + 1, r =>
    if alive i then
      let current_node := chosen_path.getD i 0
      let next_node := chosen_path.getD (i + 1) 0
      match get_connection_info g current_node next_node with
      | none => hopLoop g rules msg chosen_path alive (i + 1) rem r
      | some ci =>
        let base_delay := ci.latency / 1000
        let pl := apply_packet_loss rules current_node r
        if pl.1 then ([Event.packet_lost msg.id current_node], pl.2, true)
        else
          let ad := apply_delay rules current_node (base_delay * 1000) pl.2
          let actual_delay := ad.1 / 1000
          let co := apply_corruption rules current_node ad.2
          let arrivedEv := Event.packet_arrived msg.id next_node current_node
            co.1 (actual_delay * 1000)
          let rec0 := hopLoop g rules msg chosen_path alive (i + 1) rem co.2
          (arrivedEv :: rec0.1, rec0.2.1, rec0.2.2)
    else ([], r, false)

/-- Python truthiness of `Optional[int]`: `None` and `0` are falsy. -/
def intTruthy : Option Int → Bool
  | none => false
  | some v => v != 0

/-- The post-hop tail of `_simulate_message`: the wrong-delivery check
`if wrong_destination and wrong_destination != message.destination_node_id`
followed by the `packet_misdelivered` / `packet_delivered` emission. -/
def deliveryCheck (g : Graph) (rules : List Anomaly) (msg : Message)
    (chosen_path : List Int) (r : Rand) : List Event × Rand :=
  let available_nodes := g.nodeIds
  let wd := apply_wrong_delivery rules (chosen_path.getLastD 0) available_nodes r
  if intTruthy wd.1 && wd.1 != some msg.destination_node_id then
    ([Event.packet_misdelivered msg.id msg.destination_node_id (wd.1.getD 0)], wd.2)
  else
    ([Event.packet_delivered msg.id msg.destination_node_id chosen_path], wd.2)

/-- `SimulationEngine._simulate_message`: route, emit `packet_sent`, run the
hop loop, and unless the packet was lost run the delivery check. -/
def simulate_message (g : Graph) (rules : List Anomaly) (msg : Message)
    (alive : Nat → Bool) (r : Rand) : List Event × Rand :=
  match find_all_paths g msg.source_node_id msg.destination_node_id with
  | [] => ([Event.packet_failed msg.id "No path available"], r)
  | chosen_path :: _ =>
    let sentEv := Event.packet_sent msg.id msg.source_node_id msg.destination_node_id
      chosen_path msg.packet_size_bytes
    let hl := hopLoop g rules msg chosen_path alive 0 (chosen_path.length - 1) r
    if hl.2.2 then (sentEv :: hl.1, hl.2.1)
    else
      let dc := deliveryCheck g rules msg chosen_path hl.2.1
      (sentEv :: (hl.1 ++ dc.1), dc.2)

/-!  Run coordinator (`SimulationEngine`).  -/

/-- The message loop of `_run_simulation`: before each message the
cancellation flag is read (oracle `aliveMsg`, indexed by message position);
a cleared flag breaks out of the loop. -/
def msgLoop (g : Graph) (rules : List Anomaly) (aliveMsg : Nat → Bool)
    (aliveHop : Nat → Nat → Bool) :
    List Message → Nat → Rand → List Event
  | [], _, _ => []
  | m :: rest, j, r =>
    if aliveMsg j then
      let sm := simulate_message g rules m (aliveHop j) r
      sm.1 ++ msgLoop g rules aliveMsg aliveHop rest (j + 1) sm.2
    else []

/-- The `try` body of `_run_simulation`: `simulation_started`, the message
loop, then `simulation_completed`. -/
def runBody (g : Graph) (rules : List Anomaly) (simulation_id : String)
    (messages : List Message) (aliveMsg : Nat → Bool)
    (aliveHop : Nat → Nat → Bool) (r : Rand) : List Event :=
  Event.simulation_started simulation_id messages.length ::
    (msgLoop g rules aliveMsg aliveHop messages 0 r ++
      [Event.simulation_completed simulation_id])

/-- How the body of a run task ends: normally, by `asyncio.CancelledError`,
or by an uncaught exception with message `error`. -/
inductive RunOutcome where
  | ok
  | cancelled
  | exn (error : String)
deriving DecidableEq, Repr

/-- The engine's run-tracking state: the dicts `active_simulations`
(runId → flag, insertion-ordered with unique keys) and `simulation_tasks`
(key set; task handles carry no further logic here). -/
structure EngineState where
  active_simulations : List (String × Bool)
  simulation_tasks : List String
deriving DecidableEq, Repr

/-- Python dict assignment `d[k] = v` on `active_simulations`. -/
def dsetActive (l : List (String × Bool)) (k : String) (v : Bool) :
    List (String × Bool) :=
  if l.any (fun kv => kv.1 == k) then
    l.map (fun kv => if kv.1 = k then (k, v) else kv)
  else l ++ [(k, v)]

/-- Key set of `active_simulations`. -/
def activeKeys (st : EngineState) : List String :=
  st.active_simulations.map (fun kv => kv.1)

/-- The registry effect of `SimulationEngine.start_simulation`:
`active_simulations[simulation_id] = True` and
`simulation_tasks[simulation_id] = task`, with no suspension point between. -/
def start_register (st : EngineState) (simulation_id : String) : EngineState :=
  { active_simulations := dsetActive st.active_simulations simulation_id true,
    simulation_tasks :=
      if simulation_id ∈ st.simulation_tasks then st.simulation_tasks
      else st.simulation_tasks ++ [simulation_id] }

/-- `SimulationEngine.stop_simulation`: guarded on membership in
`active_simulations`; sets the flag to `False`, cancels and deletes the task
entry if present, then deletes the `active_simulations` entry. -/
def stop_simulation (st : EngineState) (simulation_id : String) : EngineState :=
  if st.active_simulations.any (fun kv => kv.1 == simulation_id) then
    { active_simulations :=
        (dsetActive st.active_simulations simulation_id false).filter
          (fun kv => kv.1 != simulation_id),
      simulation_tasks :=
        if simulation_id ∈ st.simulation_tasks then
          st.simulation_tasks.filter (fun k => k != simulation_id)
        else st.simulation_tasks }
  else st

/-- The `finally` block of `_run_simulation`: delete the run id from both
dicts when present. -/
def teardownRun (st : EngineState) (simulation_id : String) : EngineState :=
  { active_simulations := st.active_simulations.filter (fun kv => kv.1 != simulation_id),
    simulation_tasks := st.simulation_tasks.filter (fun k => k != simulation_id) }

/-- The `try/except/finally` wrapper of `_run_simulation` around an already
emitted body stream: an uncaught exception appends one `simulation_error`
event; cancellation and normal completion append nothing; the `finally`
teardown always runs. -/
def run_simulation_finish (simulation_id : String) (bodyEvents : List Event)
    (outcome : RunOutcome) (st : EngineState) : List Event × EngineState :=
  match outcome with
  | .ok => (bodyEvents, teardownRun st simulation_id)
  | .cancelled => (bodyEvents, teardownRun st simulation_id)
  | .exn e => (bodyEvents ++ [Event.simulation_error simulation_id e],
               teardownRun st simulation_id)

/-!  Derived predicates and spec-side definitions used by the theorems.  -/

/-- A simple path from `s` to `d` in the graph: consecutive nodes are joined
by edges, no node repeats. -/
def IsSimplePath (g : Graph) (s d : Int) (p : List Int) : Prop :=
  p.head? = some s ∧ p.getLast? = some d ∧ p.Nodup ∧
    List.Chain' (fun a b => hasEdgePair g.edgeList a b = true) p

/-- The registry-consistency invariant of claim C9: the run ids tracked in
`active_simulations` are exactly those tracked in `simulation_tasks`. -/
def keysConsistent (st : EngineState) : Prop :=
  ∀ k, k ∈ activeKeys st ↔ k ∈ st.simulation_tasks

/-- The delay scan as the spec words it (§4.2, §9): the rules are consulted
top-to-bottom in insertion order; each rule of delay kind whose scope matches
consumes one uniform draw and fires when the draw is below its probability;
the scan returns the first firing rule and never consults anything after it. -/
def specFirstFiringDelayRule (rules : List Anomaly) (current_node_id : Int)
    (draws : List ℚ) : Option Anomaly :=
  match rules with
  | [] => none
  | a :: rest =>
    if matchesKind a .delay current_node_id then
      match draws with
      | [] => if (0 : ℚ) < a.probability then some a
              else specFirstFiringDelayRule rest current_node_id []
      | d :: ds => if d < a.probability then some a
                   else specFirstFiringDelayRule rest current_node_id ds
    else specFirstFiringDelayRule rest current_node_id draws

instance : IsTotal (List Int) (fun p q => p.length ≤ q.length) :=
  ⟨fun _ _ => Nat.le_total _ _⟩

instance : IsTrans (List Int) (fun p q => p.length ≤ q.length) :=
  ⟨fun _ _ _ => Nat.le_trans⟩

/-!  Concrete inputs used by witnesses and counterexamples.  -/

/-- A node snapshot with defaulted attributes. -/
def mkNode (i : Int) : Node :=
  { id := i, name := "n", node_type := "router", status := "active",
    x_position := 0, y_position := 0 }

/-- An active connection snapshot with 10 ms latency. -/
def mkConn (cid a b : Int) : Connection :=
  { id := cid, source_node_id := a, destination_node_id := b,
    connection_type := "ethernet", bandwidth_mbps := 100, latency_ms := 10,
    status := "active" }

/-- A message snapshot with the default 1024-byte packet size. -/
def mkMsg (i s d : Int) : Message :=
  { id := i, source_node_id := s, destination_node_id := d,
    packet_size_bytes := 1024 }

/-- The chain topology A–B–C of spec §8 (ids 1, 2, 3). -/
def gChain3 : Graph :=
  build_from_session_data [mkNode 1, mkNode 2, mkNode 3] [mkConn 1 1 2, mkConn 2 2 3]

/-- A two-node topology 1–2. -/
def gPair : Graph :=
  build_from_session_data [mkNode 1, mkNode 2] [mkConn 1 1 2]

/-- A path topology 1–2–…–12: connected endpoints 11 hops apart. -/
def gLong : Graph :=
  build_from_session_data ((List.range 12).map (fun i => mkNode (i + 1)))
    ((List.range 11).map (fun i => mkConn (i + 1) (i + 1) (i + 2)))

/-- Nodes 0, 1, 2 with the single edge 1–2; node id 0 is a valid vertex. -/
def gZero : Graph :=
  build_from_session_data [mkNode 0, mkNode 1, mkNode 2] [mkConn 1 1 2]

/-- A one-node topology with zero connections. -/
def gLone : Graph :=
  build_from_session_data [mkNode 1] []

/-- A registry state tracking the single run id "a". -/
def stDemo : EngineState :=
  { active_simulations := [("a", true)], simulation_tasks := ["a"] }

/-- An inactive (cut) connection between nodes 1 and 2. -/
def downConn : Connection :=
  { id := 1, source_node_id := 1, destination_node_id := 2,
    connection_type := "ethernet", bandwidth_mbps := 100, latency_ms := 10,
    status := "inactive" }

/-- A network-wide wrong-delivery rule with probability 1. -/
def wdRule : Anomaly :=
  { id := 1, anomaly_type := .wrong_delivery, affected_node_id := none,
    probability := 1, parameters := [], is_active := true }

/-- A network-wide delay rule with probability 0 and no parameters. -/
def delayRuleA : Anomaly :=
  { id := 1, anomaly_type := .delay, affected_node_id := none,
    probability := 0, parameters := [], is_active := true }

/-- A network-wide delay rule with probability 1 adding 500 ms. -/
def delayRuleB : Anomaly :=
  { id := 2, anomaly_type := .delay, affected_node_id := none,
    probability := 1, parameters := [("additional_delay_ms", 500)],
    is_active := true }

/-!  Theorems.  -/

theorem any_key_eq_true {l : List (String × Bool)} {k : String} :
    l.any (fun kv => kv.1 == k) = true ↔ k ∈ l.map (fun kv => kv.1) := by
  simp [List.any_eq_true]

theorem stop_noop {st : EngineState} {simulation_id : String}
    (h : simulation_id ∉ activeKeys st) :
    stop_simulation st simulation_id = st := by
  unfold stop_simulation
  rw [if_neg]
  intro hc
  exact h (any_key_eq_true.mp hc)

theorem not_mem_active_stop (st : EngineState) (simulation_id : String) :
    simulation_id ∉ activeKeys (stop_simulation st simulation_id) := by
  unfold stop_simulation
  split
  · simp [activeKeys, List.mem_map, List.mem_filter]
  · next hc =>
    intro hmem
    exact hc (any_key_eq_true.mpr hmem)

/-- C1: with the run flag cleared right after `packet_sent` (every cooperative
read during the walk returns false), the engine still emits a
`packet_delivered` terminal event for the in-flight message and a
`simulation_completed` event for the run — the `break` on the cancellation
flag falls through to the delivery check and the completion broadcast,
contradicting "no further events after cancellation". -/
theorem c1_cancelled_run_still_emits :
    runBody gPair [] "sim" [mkMsg 7 1 2] (fun _ => true) (fun _ _ => false)
        { draws := [], choices := [] } =
      [Event.simulation_started "sim" 1,
       Event.packet_sent 7 1 2 [1, 2] 1024,
       Event.packet_delivered 7 2 [1, 2],
       Event.simulation_completed "sim"] := by
  decide

/-- C2 (counterexample): nodes 1 and 12 of the 12-node path topology lie in
the same connected component (the shortest path between them exists), yet the
walker emits only `packet_failed` and no `packet_sent`: the 10-hop routing
cutoff makes the path query empty. -/
theorem c2_counterexample :
    find_shortest_path gLong 1 12 =
      some [1, 2, 3, 4, 5, 6, 7, 8, 9, 10, 11, 12] ∧
    find_all_paths gLong 1 12 = [] ∧
    (simulate_message gLong [] (mkMsg 7 1 12) (fun _ => true)
        { draws := [], choices := [] }).1 =
      [Event.packet_failed 7 "No path available"] := by
  decide

/-- C3 (counterexample): on the topology with vertices 0, 1, 2 and the edge
1–2, `wrongDelivery` returns node 0, which differs from the intended
destination 2, yet the walker emits `packet_delivered` — the Python truthiness
test `if wrong_destination and ...` treats node id 0 like `None`. -/
theorem c3_counterexample :
    (apply_wrong_delivery (anomalyDict [wdRule]) 2 gZero.nodeIds
        { draws := [0], choices := [0] }).1 = some 0 ∧
    (0 : Int) ≠ 2 ∧
    (simulate_message gZero (anomalyDict [wdRule]) (mkMsg 1 1 2) (fun _ => true)
        { draws := [0], choices := [0] }).1 =
      [Event.packet_sent 1 1 2 [1, 2] 1024,
       Event.packet_arrived 1 2 1 false 10,
       Event.packet_delivered 1 2 [1, 2]] := by
  refine ⟨by decide, by decide, ?_⟩
  norm_num +decide [simulate_message, find_all_paths, pathsAux, neighbors, gZero,
    build_from_session_data, mkNode, mkConn, addNode, addEdge, addNodeId,
    hasEdgePair, mkMsg, anomalyDict, wdRule, dictInsertAnomaly, hopLoop,
    get_connection_info, apply_packet_loss, apply_delay, apply_corruption,
    apply_wrong_delivery, matchesKind, should_apply_anomaly, popDraw, popChoice,
    randomChoice, deliveryCheck, intTruthy, dictGet, List.insertionSort,
    List.orderedInsert]

/-- C5 (counterexample): on a topology with one node and zero active
connections, the pair (1, 1) makes `find_shortest_path` return the trivial
path `[1]` and `find_all_paths` return `[[1]]` — not none/empty as claimed
(edge info is still none). -/
theorem c5_counterexample :
    find_shortest_path gLone 1 1 = some [1] ∧
    find_all_paths gLone 1 1 = [[1]] ∧
    get_connection_info gLone 1 1 = none := by
  decide

/-- C8: `stop_simulation` on a run id absent from `active_simulations` leaves
the registry and the task table unchanged, and stopping the same run id twice
is a no-op the second time. -/
theorem c8_stop_idempotent (st : EngineState) (simulation_id : String) :
    (simulation_id ∉ activeKeys st → stop_simulation st simulation_id = st) ∧
    stop_simulation (stop_simulation st simulation_id) simulation_id =
      stop_simulation st simulation_id :=
  ⟨fun h => stop_noop h, stop_noop (not_mem_active_stop st simulation_id)⟩

/-- C8 witness: stopping the unknown id "b" leaves the demo state unchanged,
and stopping "a" twice equals stopping it once. -/
theorem c8_stop_idempotent_witness :
    stop_simulation stDemo "b" = stDemo ∧
    stop_simulation (stop_simulation stDemo "a") "a" =
      stop_simulation stDemo "a" :=
  ⟨(c8_stop_idempotent stDemo "b").1 (by decide),
   (c8_stop_idempotent stDemo "a").2⟩

theorem keys_dset (l : List (String × Bool)) (k : String) (v : Bool) (k0 : String) :
    k0 ∈ (dsetActive l k v).map (fun kv => kv.1) ↔
      k0 ∈ l.map (fun kv => kv.1) ∨ k0 = k := by
  unfold dsetActive
  split
  · next hany =>
    have hmap : (l.map (fun kv => if kv.1 = k then (k, v) else kv)).map
        (fun kv => kv.1) = l.map (fun kv => kv.1) := by
      rw [List.map_map]
      refine List.map_congr_left ?_
      intro kv _
      by_cases hk : kv.1 = k <;> simp [hk]
    rw [hmap]
    constructor
    · exact fun hh => Or.inl hh
    · rintro (hh | rfl)
      · exact hh
      · exact any_key_eq_true.mp hany
  · simp

theorem mem_keys_filter_ne (l : List (String × Bool)) (s k : String) :
    k ∈ ((l.filter (fun kv => kv.1 != s)).map (fun kv => kv.1)) ↔
      k ∈ l.map (fun kv => kv.1) ∧ k ≠ s := by
  simp only [List.mem_map, List.mem_filter, bne_iff_ne]
  constructor
  · rintro ⟨kv, ⟨hmem, hne⟩, rfl⟩
    exact ⟨⟨kv, hmem, rfl⟩, hne⟩
  · rintro ⟨⟨kv, hmem, rfl⟩, hne⟩
    exact ⟨kv, ⟨hmem, hne⟩, rfl⟩

/-- C9: from a consistent registry state, `start_simulation`'s registration,
`stop_simulation`, and the run task's `finally` teardown each preserve the
invariant that `active_simulations` and `simulation_tasks` track the same run
ids; and start registers the run in both tables. -/
theorem c9_registry_consistency (st : EngineState) (simulation_id : String)
    (h : keysConsistent st) :
    keysConsistent (start_register st simulation_id) ∧
    simulation_id ∈ activeKeys (start_register st simulation_id) ∧
    simulation_id ∈ (start_register st simulation_id).simulation_tasks ∧
    keysConsistent (stop_simulation st simulation_id) ∧
    keysConsistent (teardownRun st simulation_id) := by
  refine ⟨?_, ?_, ?_, ?_, ?_⟩
  · intro k
    unfold start_register activeKeys
    simp only
    rw [keys_dset]
    split <;> simp_all [keysConsistent, activeKeys]
  · unfold start_register activeKeys
    simp only
    rw [keys_dset]
    exact Or.inr rfl
  · unfold start_register
    split <;> simp_all
  · intro k
    unfold stop_simulation
    split
    · next hany =>
      have hsid : simulation_id ∈ st.simulation_tasks :=
        (h simulation_id).mp (any_key_eq_true.mp hany)
      rw [if_pos hsid]
      unfold activeKeys
      simp only
      rw [mem_keys_filter_ne, keys_dset]
      simp only [List.mem_filter, bne_iff_ne]
      constructor
      · rintro ⟨hor, hne⟩
        rcases hor with hmem | rfl
        · exact ⟨(h k).mp hmem, by simpa using hne⟩
        · exact absurd rfl hne
      · rintro ⟨hmem, hne⟩
        have hne' : k ≠ simulation_id := by simpa using hne
        exact ⟨Or.inl ((h k).mpr hmem), hne'⟩
    · exact h k
  · intro k
    unfold teardownRun activeKeys
    simp only
    rw [mem_keys_filter_ne]
    simp only [List.mem_filter, bne_iff_ne]
    constructor
    · rintro ⟨hmem, hne⟩
      exact ⟨(h k).mp hmem, by simpa using hne⟩
    · rintro ⟨hmem, hne⟩
      exact ⟨(h k).mpr hmem, by simpa using hne⟩

/-- C9 witness: the empty registry is consistent and stays so through start,
stop, and teardown of run "a", which start registers in both tables. -/
theorem c9_registry_consistency_witness :
    keysConsistent (start_register { active_simulations := [], simulation_tasks := [] } "a") ∧
    "a" ∈ activeKeys (start_register { active_simulations := [], simulation_tasks := [] } "a") ∧
    "a" ∈ (start_register { active_simulations := [], simulation_tasks := [] } "a").simulation_tasks ∧
    keysConsistent (stop_simulation { active_simulations := [], simulation_tasks := [] } "a") ∧
    keysConsistent (teardownRun { active_simulations := [], simulation_tasks := [] } "a") :=
  c9_registry_consistency { active_simulations := [], simulation_tasks := [] } "a"
    (fun k => by simp [activeKeys])

theorem cons_lost_shape (ev : Event) (A : List Event) (mId m : Int)
    (hev : ev.kind = EKind.arrived) (hAk : ∀ e ∈ A, e.kind = EKind.arrived) :
    ∃ A' n', ev :: (A ++ [Event.packet_lost mId m])
        = A' ++ [Event.packet_lost mId n'] ∧
      ∀ e ∈ A', e.kind = EKind.arrived := by
  refine ⟨ev :: A, m, by simp, ?_⟩
  intro e he
  rcases List.mem_cons.mp he with rfl | hmem
  · exact hev
  · exact hAk e hmem

theorem hopLoop_shape (g : Graph) (rules : List Anomaly) (msg : Message)
    (chosen_path : List Int) (alive : Nat → Bool) :
    ∀ (rem i : Nat) (r : Rand),
      ((hopLoop g rules msg chosen_path alive i rem r).2.2 = true →
        ∃ A n, (hopLoop g rules msg chosen_path alive i rem r).1
            = A ++ [Event.packet_lost msg.id n] ∧ ∀ e ∈ A, e.kind = EKind.arrived) ∧
      ((hopLoop g rules msg chosen_path alive i rem r).2.2 = false →
        ∀ e ∈ (hopLoop g rules msg chosen_path alive i rem r).1,
          e.kind = EKind.arrived) := by
  intro rem
  induction rem with
  | zero =>
    intro i r
    constructor
    · intro hlost
      simp [hopLoop] at hlost
    · intro _ e he
      simp [hopLoop] at he
  | succ n ih =>
    intro i r
    by_cases halive : alive i
    · rcases hci : get_connection_info g (chosen_path.getD i 0)
        (chosen_path.getD (i + 1) 0) with _ | ci
      · constructor
        · intro hlost
          simp only [hopLoop, if_pos halive, hci] at hlost ⊢
          exact (ih (i + 1) r).1 hlost
        · intro hnot e he
          simp only [hopLoop, if_pos halive, hci] at hnot he
          exact (ih (i + 1) r).2 hnot e he
      · by_cases hpl : (apply_packet_loss rules (chosen_path.getD i 0) r).1
        · constructor
          · intro _
            refine ⟨[], chosen_path.getD i 0, ?_, by simp⟩
            simp only [hopLoop, if_pos halive, hci, if_pos hpl, List.nil_append]
          · intro hnot
            simp only [hopLoop, if_pos halive, hci, if_pos hpl] at hnot
            exact absurd hnot (by simp)
        · constructor
          · intro hlost
            simp only [hopLoop, if_pos halive, hci, if_neg hpl] at hlost ⊢
            obtain ⟨A, m, hA, hAk⟩ := (ih (i + 1) _).1 hlost
            rw [hA]
            exact cons_lost_shape _ A msg.id m rfl hAk
          · intro hnot e he
            simp only [hopLoop, if_pos halive, hci, if_neg hpl] at hnot he
            rcases List.mem_cons.mp he with rfl | hmem
            · rfl
            · exact (ih (i + 1) _).2 hnot e hmem
    · constructor
      · intro hlost
        simp only [hopLoop, if_neg halive] at hlost
        exact absurd hlost (by simp)
      · intro _ e he
        simp only [hopLoop, if_neg halive] at he
        simp at he

theorem hopLoop_kinds (g : Graph) (rules : List Anomaly) (msg : Message)
    (chosen_path : List Int) (alive : Nat → Bool) :
    ∀ (rem i : Nat) (r : Rand),
      ∀ e ∈ (hopLoop g rules msg chosen_path alive i rem r).1,
        e.kind = EKind.arrived ∨ e.kind = EKind.lost := by
  intro rem i r e he
  by_cases hl : (hopLoop g rules msg chosen_path alive i rem r).2.2
  · obtain ⟨A, m, hA, hAk⟩ :=
      (hopLoop_shape g rules msg chosen_path alive rem i r).1 hl
    rw [hA] at he
    rcases List.mem_append.mp he with hm | hm
    · exact Or.inl (hAk e hm)
    · simp at hm
      subst hm
      exact Or.inr rfl
  · exact Or.inl ((hopLoop_shape g rules msg chosen_path alive rem i r).2
      (by simpa using hl) e he)

theorem deliveryCheck_singleton (g : Graph) (rules : List Anomaly) (msg : Message)
    (chosen_path : List Int) (r : Rand) :
    ∃ t, (deliveryCheck g rules msg chosen_path r).1 = [t] ∧
      (t.kind = EKind.misdelivered ∨ t.kind = EKind.delivered) := by
  simp only [deliveryCheck]
  split
  · exact ⟨_, rfl, Or.inl rfl⟩
  · exact ⟨_, rfl, Or.inr rfl⟩

theorem simulate_message_kinds (g : Graph) (rules : List Anomaly) (msg : Message)
    (alive : Nat → Bool) (r : Rand) :
    ∀ e ∈ (simulate_message g rules msg alive r).1,
      e.kind = EKind.failed ∨ e.kind = EKind.sent ∨ e.kind = EKind.arrived ∨
      e.kind = EKind.lost ∨ e.kind = EKind.misdelivered ∨ e.kind = EKind.delivered := by
  intro e he
  unfold simulate_message at he
  split at he
  · simp at he
    subst he
    exact Or.inl rfl
  · simp only at he
    split at he
    · rcases List.mem_cons.mp he with rfl | hmem
      · exact Or.inr (Or.inl rfl)
      · rcases hopLoop_kinds g rules msg _ alive _ _ _ e hmem with hk | hk
        · exact Or.inr (Or.inr (Or.inl hk))
        · exact Or.inr (Or.inr (Or.inr (Or.inl hk)))
    · rcases List.mem_cons.mp he with rfl | hmem
      · exact Or.inr (Or.inl rfl)
      · rcases List.mem_append.mp hmem with hmem1 | hmem2
        · rcases hopLoop_kinds g rules msg _ alive _ _ _ e hmem1 with hk | hk
          · exact Or.inr (Or.inr (Or.inl hk))
          · exact Or.inr (Or.inr (Or.inr (Or.inl hk)))
        · obtain ⟨t, ht, hkind⟩ := deliveryCheck_singleton g rules msg _ _
          rw [ht] at hmem2
          simp at hmem2
          subst hmem2
          rcases hkind with hk | hk
          · exact Or.inr (Or.inr (Or.inr (Or.inr (Or.inl hk))))
          · exact Or.inr (Or.inr (Or.inr (Or.inr (Or.inr hk))))

theorem msgLoop_no_error (g : Graph) (rules : List Anomaly) (aliveMsg : Nat → Bool)
    (aliveHop : Nat → Nat → Bool) :
    ∀ (messages : List Message) (j : Nat) (r : Rand),
      ∀ e ∈ msgLoop g rules aliveMsg aliveHop messages j r, e.kind ≠ EKind.error := by
  intro messages
  induction messages with
  | nil =>
    intro j r e he
    simp [msgLoop] at he
  | cons m rest ih =>
    intro j r e he
    simp only [msgLoop] at he
    split at he
    · rcases List.mem_append.mp he with hmem | hmem
      · intro hk
        rcases simulate_message_kinds g rules m (aliveHop j) r e hmem with
          h1 | h1 | h1 | h1 | h1 | h1 <;> rw [hk] at h1 <;> exact EKind.noConfusion h1
      · exact ih (j + 1) _ e hmem
    · simp at he

theorem runBody_no_error (g : Graph) (rules : List Anomaly) (simulation_id : String)
    (messages : List Message) (aliveMsg : Nat → Bool) (aliveHop : Nat → Nat → Bool)
    (r : Rand) :
    ∀ e ∈ runBody g rules simulation_id messages aliveMsg aliveHop r,
      e.kind ≠ EKind.error := by
  intro e he
  unfold runBody at he
  rcases List.mem_cons.mp he with rfl | hmem
  · simp [Event.kind]
  · rcases List.mem_append.mp hmem with hmem1 | hmem2
    · exact msgLoop_no_error g rules aliveMsg aliveHop messages 0 r e hmem1
    · simp at hmem2
      subst hmem2
      simp [Event.kind]

theorem not_mem_teardown_active (st : EngineState) (simulation_id : String) :
    simulation_id ∉ activeKeys (teardownRun st simulation_id) := by
  unfold teardownRun activeKeys
  simp only
  rw [mem_keys_filter_ne]
  rintro ⟨_, hne⟩
  exact hne rfl

theorem not_mem_teardown_tasks (st : EngineState) (simulation_id : String) :
    simulation_id ∉ (teardownRun st simulation_id).simulation_tasks := by
  unfold teardownRun
  simp [List.mem_filter]

/-- C7: when the run body ends in an uncaught exception after emitting any
prefix of its event stream, the top-level handler emits exactly one
`simulation_error` event (the body itself never emits one); and whatever way
the run task finishes — completion, error, or cancellation — the `finally`
teardown leaves the run id absent from both tracking tables. -/
theorem c7_error_reported_and_torn_down (g : Graph) (rules : List Anomaly)
    (simulation_id : String) (messages : List Message) (aliveMsg : Nat → Bool)
    (aliveHop : Nat → Nat → Bool) (r : Rand) (st : EngineState) (err : String)
    (pre post : List Event)
    (hpre : pre ++ post = runBody g rules simulation_id messages aliveMsg aliveHop r) :
    (run_simulation_finish simulation_id pre (.exn err) st).1.countP
        (fun e => e.kind == EKind.error) = 1 ∧
    (∀ (outcome : RunOutcome) (bodyEvents : List Event),
      simulation_id ∉
        activeKeys (run_simulation_finish simulation_id bodyEvents outcome st).2 ∧
      simulation_id ∉
        (run_simulation_finish simulation_id bodyEvents outcome st).2.simulation_tasks) := by
  constructor
  · have hzero : pre.countP (fun e => e.kind == EKind.error) = 0 := by
      rw [List.countP_eq_zero]
      intro e hemem
      have : e ∈ runBody g rules simulation_id messages aliveMsg aliveHop r := by
        rw [← hpre]
        exact List.mem_append_left post hemem
      simpa using runBody_no_error g rules simulation_id messages aliveMsg aliveHop r e this
    have hone : (run_simulation_finish simulation_id pre (.exn err) st).1
        = pre ++ [Event.simulation_error simulation_id err] := rfl
    rw [hone, List.countP_append, hzero]
    simp [Event.kind]
  · intro outcome bodyEvents
    cases outcome <;>
      exact ⟨not_mem_teardown_active st simulation_id,
             not_mem_teardown_tasks st simulation_id⟩

/-- C7 witness: a concrete interrupted run (empty emitted prefix) on the
two-node topology yields exactly one `simulation_error`, and the demo registry
has no entry for the run id afterwards. -/
theorem c7_error_reported_and_torn_down_witness :
    (run_simulation_finish "a" [] (.exn "boom") stDemo).1.countP
        (fun e => e.kind == EKind.error) = 1 ∧
    (∀ (outcome : RunOutcome) (bodyEvents : List Event),
      "a" ∉ activeKeys (run_simulation_finish "a" bodyEvents outcome stDemo).2 ∧
      "a" ∉ (run_simulation_finish "a" bodyEvents outcome stDemo).2.simulation_tasks) :=
  c7_error_reported_and_torn_down gPair [] "a" [] (fun _ => true) (fun _ _ => true)
    { draws := [], choices := [] } stDemo "boom" []
    (runBody gPair [] "a" [] (fun _ => true) (fun _ _ => true) { draws := [], choices := [] })
    rfl

theorem countP_terminal_shape (mid : List Event) (t s : Event)
    (hmid : ∀ e ∈ mid, e.kind = EKind.arrived) (ht : t.kind.isTerminal = true)
    (hs : s.kind = EKind.sent) :
    (s :: (mid ++ [t])).countP (fun e => e.kind.isTerminal) = 1 ∧
    (s :: (mid ++ [t])).countP (fun e => e.kind == EKind.sent) = 1 := by
  have hmid1 : mid.countP (fun e => e.kind.isTerminal) = 0 := by
    rw [List.countP_eq_zero]
    intro e he
    simp [hmid e he, EKind.isTerminal]
  have hmid2 : mid.countP (fun e => e.kind == EKind.sent) = 0 := by
    rw [List.countP_eq_zero]
    intro e he
    simp [hmid e he]
  have htns : (t.kind == EKind.sent) = false := by
    cases hk : t.kind <;> simp_all [EKind.isTerminal]
  have hsterm : s.kind.isTerminal = false := by rw [hs]; rfl
  have hss : (s.kind == EKind.sent) = true := by rw [hs]; rfl
  constructor
  · rw [List.countP_cons, List.countP_append, hmid1, List.countP_cons, List.countP_nil]
    simp [hsterm, ht]
  · rw [List.countP_cons, List.countP_append, hmid2, List.countP_cons, List.countP_nil]
    simp [hss, htns]

/-- C2 (amended): for every message for which the path query returns at least
one path — endpoints in the same connected component **within the 10-hop
routing cutoff** — an uncancelled walk emits exactly one `packet_sent`
(carrying the chosen path), then zero or more `packet_arrived` events, then
exactly one terminal event (lost, misdelivered, or delivered) — never zero and
never two.  (Endpoints that are connected but farther than the cutoff get a
`packet_failed` with no `packet_sent`, as the counterexample shows.) -/
theorem c2_walk_emits_one_terminal (g : Graph) (rules : List Anomaly)
    (msg : Message) (r : Rand)
    (h : find_all_paths g msg.source_node_id msg.destination_node_id ≠ []) :
    ∃ (chosen : List Int) (rest : List (List Int)) (mid : List Event) (t : Event),
      find_all_paths g msg.source_node_id msg.destination_node_id = chosen :: rest ∧
      (simulate_message g rules msg (fun _ => true) r).1 =
        Event.packet_sent msg.id msg.source_node_id msg.destination_node_id chosen
          msg.packet_size_bytes :: (mid ++ [t]) ∧
      (∀ e ∈ mid, e.kind = EKind.arrived) ∧
      t.kind.isTerminal = true ∧
      (simulate_message g rules msg (fun _ => true) r).1.countP
          (fun e => e.kind.isTerminal) = 1 ∧
      (simulate_message g rules msg (fun _ => true) r).1.countP
          (fun e => e.kind == EKind.sent) = 1 := by
  obtain ⟨chosen, rest, hfa⟩ :
      ∃ c cs, find_all_paths g msg.source_node_id msg.destination_node_id = c :: cs := by
    cases hfa : find_all_paths g msg.source_node_id msg.destination_node_id with
    | nil => exact absurd hfa h
    | cons c cs => exact ⟨c, cs, rfl⟩
  have hshape := hopLoop_shape g rules msg chosen (fun _ => true)
    (chosen.length - 1) 0 r
  by_cases hlost : (hopLoop g rules msg chosen (fun _ => true) 0
      (chosen.length - 1) r).2.2
  · obtain ⟨A, m, hA, hAk⟩ := hshape.1 hlost
    refine ⟨chosen, rest, A, Event.packet_lost msg.id m, hfa, ?_, hAk, rfl, ?_, ?_⟩
    · simp only [simulate_message, hfa, if_pos hlost, hA]
    · have := countP_terminal_shape A (Event.packet_lost msg.id m)
        (Event.packet_sent msg.id msg.source_node_id msg.destination_node_id chosen
          msg.packet_size_bytes) hAk rfl rfl
      simp only [simulate_message, hfa, if_pos hlost, hA]
      exact this.1
    · have := countP_terminal_shape A (Event.packet_lost msg.id m)
        (Event.packet_sent msg.id msg.source_node_id msg.destination_node_id chosen
          msg.packet_size_bytes) hAk rfl rfl
      simp only [simulate_message, hfa, if_pos hlost, hA]
      exact this.2
  · have hall := hshape.2 (by simpa using hlost)
    obtain ⟨t, ht, htk⟩ := deliveryCheck_singleton g rules msg chosen
      (hopLoop g rules msg chosen (fun _ => true) 0 (chosen.length - 1) r).2.1
    have htterm : t.kind.isTerminal = true := by
      rcases htk with hk | hk <;> simp [hk, EKind.isTerminal]
    refine ⟨chosen, rest,
      (hopLoop g rules msg chosen (fun _ => true) 0 (chosen.length - 1) r).1,
      t, hfa, ?_, hall, htterm, ?_, ?_⟩
    · simp only [simulate_message, hfa, if_neg hlost, ht]
    · have := countP_terminal_shape _ t
        (Event.packet_sent msg.id msg.source_node_id msg.destination_node_id chosen
          msg.packet_size_bytes) hall htterm rfl
      simp only [simulate_message, hfa, if_neg hlost, ht]
      exact this.1
    · have := countP_terminal_shape _ t
        (Event.packet_sent msg.id msg.source_node_id msg.destination_node_id chosen
          msg.packet_size_bytes) hall htterm rfl
      simp only [simulate_message, hfa, if_neg hlost, ht]
      exact this.2

/-- C2 witness: the A→C message on the 3-node chain has a nonempty path query,
so the amended claim applies to it. -/
theorem c2_walk_emits_one_terminal_witness :
    ∃ (chosen : List Int) (rest : List (List Int)) (mid : List Event) (t : Event),
      find_all_paths gChain3 (mkMsg 7 1 3).source_node_id
          (mkMsg 7 1 3).destination_node_id = chosen :: rest ∧
      (simulate_message gChain3 [] (mkMsg 7 1 3) (fun _ => true)
          { draws := [], choices := [] }).1 =
        Event.packet_sent (mkMsg 7 1 3).id (mkMsg 7 1 3).source_node_id
          (mkMsg 7 1 3).destination_node_id chosen
          (mkMsg 7 1 3).packet_size_bytes :: (mid ++ [t]) ∧
      (∀ e ∈ mid, e.kind = EKind.arrived) ∧
      t.kind.isTerminal = true ∧
      (simulate_message gChain3 [] (mkMsg 7 1 3) (fun _ => true)
          { draws := [], choices := [] }).1.countP
          (fun e => e.kind.isTerminal) = 1 ∧
      (simulate_message gChain3 [] (mkMsg 7 1 3) (fun _ => true)
          { draws := [], choices := [] }).1.countP
          (fun e => e.kind == EKind.sent) = 1 :=
  c2_walk_emits_one_terminal gChain3 [] (mkMsg 7 1 3)
    { draws := [], choices := [] } (by decide)

/-- C3 (amended): after the walker completes all hops,
`wrongDelivery(lastNode, allTopologyNodeIds)` is evaluated; for every
**nonzero** node id it returns that differs from the intended destination the
walker emits `packet_misdelivered`; in every other case — no rule fires, the
returned node equals the intended destination, or the returned node id is 0,
which Python truthiness treats like `None` — it emits `packet_delivered` with
the full path. -/
theorem c3_delivery_check (g : Graph) (rules : List Anomaly) (msg : Message)
    (chosen_path : List Int) (r : Rand) :
    (∀ wd, (apply_wrong_delivery rules (chosen_path.getLastD 0) g.nodeIds r).1
        = some wd → wd ≠ 0 → wd ≠ msg.destination_node_id →
      (deliveryCheck g rules msg chosen_path r).1 =
        [Event.packet_misdelivered msg.id msg.destination_node_id wd]) ∧
    (∀ wd, (apply_wrong_delivery rules (chosen_path.getLastD 0) g.nodeIds r).1
        = some wd → (wd = 0 ∨ wd = msg.destination_node_id) →
      (deliveryCheck g rules msg chosen_path r).1 =
        [Event.packet_delivered msg.id msg.destination_node_id chosen_path]) ∧
    ((apply_wrong_delivery rules (chosen_path.getLastD 0) g.nodeIds r).1 = none →
      (deliveryCheck g rules msg chosen_path r).1 =
        [Event.packet_delivered msg.id msg.destination_node_id chosen_path]) := by
  refine ⟨?_, ?_, ?_⟩
  · intro wd hw h0 hd
    simp only [deliveryCheck, hw]
    have hcond : (intTruthy (some wd) && (some wd != some msg.destination_node_id))
        = true := by
      simp [intTruthy, h0, hd]
    rw [if_pos hcond]
    rfl
  · intro wd hw hcase
    simp only [deliveryCheck, hw]
    have hcond : ¬ ((intTruthy (some wd) &&
        (some wd != some msg.destination_node_id)) = true) := by
      rcases hcase with rfl | rfl <;> simp [intTruthy]
    rw [if_neg hcond]
  · intro hw
    simp only [deliveryCheck, hw]
    have hcond : ¬ ((intTruthy none &&
        ((none : Option Int) != some msg.destination_node_id)) = true) := by
      simp [intTruthy]
    rw [if_neg hcond]

/-- C3 witness: on the 3-node chain with a certain wrong-delivery rule,
`wrongDelivery` returns node 1 ≠ destination 3, and the delivery phase emits
`packet_misdelivered` to node 1. -/
theorem c3_delivery_check_witness :
    (deliveryCheck gChain3 (anomalyDict [wdRule]) (mkMsg 7 1 3) [1, 2, 3]
        { draws := [0], choices := [0] }).1 =
      [Event.packet_misdelivered (mkMsg 7 1 3).id
        (mkMsg 7 1 3).destination_node_id 1] :=
  (c3_delivery_check gChain3 (anomalyDict [wdRule]) (mkMsg 7 1 3) [1, 2, 3]
    { draws := [0], choices := [0] }).1 1 (by decide) (by decide) (by decide)

theorem foldl_addNode_edgeList (nodes : List Node) :
    ∀ g : Graph, (nodes.foldl nodeStep g).edgeList = g.edgeList := by
  induction nodes with
  | nil => intro g; rfl
  | cons n ns ih =>
    intro g
    rw [List.foldl_cons, ih]
    rfl

theorem foldl_inactive_id : ∀ (connections : List Connection) (g : Graph),
    (∀ c ∈ connections, c.status ≠ "active") →
    connections.foldl connStep g = g
  | [], _, _ => rfl
  | c :: cs, g, hc => by
    rw [List.foldl_cons]
    have hstep : connStep g c = g := by
      unfold connStep
      rw [if_neg (hc c (List.mem_cons_self c cs))]
    rw [hstep]
    exact foldl_inactive_id cs g (fun x hx => hc x (List.mem_cons_of_mem c hx))

theorem build_no_active_edgeList (nodes : List Node) (connections : List Connection)
    (hc : ∀ c ∈ connections, c.status ≠ "active") :
    (build_from_session_data nodes connections).edgeList = [] := by
  unfold build_from_session_data
  rw [foldl_inactive_id connections _ hc, foldl_addNode_edgeList]

theorem bfsAux_nil_frontier (g : Graph) (dst : Int) (visited : List Int) :
    ∀ fuel, bfsAux g dst fuel [] visited = none := by
  intro fuel
  cases fuel <;> rfl

/-- C5 (amended): for every topology built with zero active connections the
edge set is empty, `edgeInfo` returns none for **any** pair, and for every
pair of **distinct** node ids `shortestPath` returns none and
`allSimplePaths` returns the empty sequence — treated as "no route", never an
error.  (For the pair (s, s) with s a present node, both path queries return
the trivial path `[s]`, as the counterexample shows.) -/
theorem c5_no_active_connections (nodes : List Node) (connections : List Connection)
    (hc : ∀ c ∈ connections, c.status ≠ "active") (a b : Int) :
    get_connection_info (build_from_session_data nodes connections) a b = none ∧
    (a ≠ b →
      find_shortest_path (build_from_session_data nodes connections) a b = none ∧
      find_all_paths (build_from_session_data nodes connections) a b = []) := by
  have hedge := build_no_active_edgeList nodes connections hc
  have hnb : ∀ u, neighbors (build_from_session_data nodes connections) u = [] := by
    intro u
    unfold neighbors
    rw [hedge]
    rfl
  constructor
  · unfold get_connection_info
    rw [hedge]
    rfl
  · intro hab
    constructor
    · unfold find_shortest_path
      split
      · simp only [bfsAux, if_neg hab, hnb, List.filter_nil, List.map_nil,
          List.nil_append, List.append_nil]
      · rfl
    · unfold find_all_paths
      split
      · simp [pathsAux, if_neg hab, hnb]
      · rfl

/-- C5 witness: with nodes 1, 2 and only an inactive connection between them,
edge info is none and the distinct pair (1, 2) has no shortest path and no
simple paths. -/
theorem c5_no_active_connections_witness :
    get_connection_info (build_from_session_data [mkNode 1, mkNode 2] [downConn])
        1 2 = none ∧
    find_shortest_path (build_from_session_data [mkNode 1, mkNode 2] [downConn])
        1 2 = none ∧
    find_all_paths (build_from_session_data [mkNode 1, mkNode 2] [downConn])
        1 2 = [] :=
  ⟨(c5_no_active_connections [mkNode 1, mkNode 2] [downConn] (by decide) 1 2).1,
   ((c5_no_active_connections [mkNode 1, mkNode 2] [downConn] (by decide) 1 2).2
      (by decide)).1,
   ((c5_no_active_connections [mkNode 1, mkNode 2] [downConn] (by decide) 1 2).2
      (by decide)).2⟩

theorem apply_delay_spec (current_node_id : Int) :
    ∀ (rules : List Anomaly) (r : Rand) (base_delay : ℚ),
      (∀ a, specFirstFiringDelayRule rules current_node_id r.draws = some a →
        (apply_delay rules current_node_id base_delay r).1 =
          base_delay + dictGet a.parameters "additional_delay_ms" 1000) ∧
      (specFirstFiringDelayRule rules current_node_id r.draws = none →
        (apply_delay rules current_node_id base_delay r).1 = base_delay)
  | [], r, base_delay => by
    constructor
    · intro a ha
      simp [specFirstFiringDelayRule] at ha
    · intro _
      rfl
  | a :: rest, ⟨draws, choices⟩, base_delay => by
    by_cases hm : matchesKind a .delay current_node_id
    · cases draws with
      | nil =>
        by_cases hp : (0 : ℚ) < a.probability
        · constructor
          · intro b hb
            simp only [specFirstFiringDelayRule, if_pos hm, if_pos hp,
              Option.some.injEq] at hb
            subst hb
            simp [apply_delay, if_pos hm, should_apply_anomaly, popDraw, hp]
          · intro hb
            simp [specFirstFiringDelayRule, if_pos hm, if_pos hp] at hb
        · have hred : (apply_delay (a :: rest) current_node_id base_delay
              ⟨[], choices⟩) = apply_delay rest current_node_id base_delay
              ⟨[], choices⟩ := by
            simp [apply_delay, if_pos hm, should_apply_anomaly, popDraw, hp]
          have hspec : specFirstFiringDelayRule (a :: rest) current_node_id
              (Rand.mk [] choices).draws =
              specFirstFiringDelayRule rest current_node_id [] := by
            simp [specFirstFiringDelayRule, if_pos hm, hp]
          rw [hred, hspec]
          exact apply_delay_spec current_node_id rest ⟨[], choices⟩ base_delay
      | cons d ds =>
        by_cases hp : d < a.probability
        · constructor
          · intro b hb
            simp only [specFirstFiringDelayRule, if_pos hm, if_pos hp,
              Option.some.injEq] at hb
            subst hb
            simp [apply_delay, if_pos hm, should_apply_anomaly, popDraw, hp]
          · intro hb
            simp [specFirstFiringDelayRule, if_pos hm, if_pos hp] at hb
        · have hred : (apply_delay (a :: rest) current_node_id base_delay
              ⟨d :: ds, choices⟩) = apply_delay rest current_node_id base_delay
              ⟨ds, choices⟩ := by
            simp [apply_delay, if_pos hm, should_apply_anomaly, popDraw, hp]
          have hspec : specFirstFiringDelayRule (a :: rest) current_node_id
              (Rand.mk (d :: ds) choices).draws =
              specFirstFiringDelayRule rest current_node_id ds := by
            simp [specFirstFiringDelayRule, if_pos hm, hp]
          rw [hred, hspec]
          exact apply_delay_spec current_node_id rest ⟨ds, choices⟩ base_delay
    · have hred : (apply_delay (a :: rest) current_node_id base_delay
          ⟨draws, choices⟩) = apply_delay rest current_node_id base_delay
          ⟨draws, choices⟩ := by
        simp [apply_delay, if_neg hm]
      have hspec : specFirstFiringDelayRule (a :: rest) current_node_id
          (Rand.mk draws choices).draws =
          specFirstFiringDelayRule rest current_node_id draws := by
        simp [specFirstFiringDelayRule, if_neg hm]
      rw [hred, hspec]
      exact apply_delay_spec current_node_id rest ⟨draws, choices⟩ base_delay

theorem dict_preserves_order : ∀ (l : List Anomaly) (acc : List (Int × Anomaly)),
    (∀ a ∈ l, ∀ kv ∈ acc, kv.1 ≠ a.id) →
    (l.map (fun a => a.id)).Nodup →
    l.foldl dictInsertAnomaly acc = acc ++ l.map (fun a => (a.id, a))
  | [], acc, _, _ => by simp
  | a :: l, acc, hdisj, hnodup => by
    rw [List.foldl_cons]
    have hstep : dictInsertAnomaly acc a = acc ++ [(a.id, a)] := by
      unfold dictInsertAnomaly
      rw [if_neg]
      simp only [List.any_eq_true, beq_iff_eq, not_exists]
      intro kv hand
      exact hdisj a (List.mem_cons_self a l) kv hand.1 hand.2
    rw [hstep]
    have hnodup' : a.id ∉ l.map (fun x => x.id) ∧ (l.map (fun x => x.id)).Nodup := by
      rw [List.map_cons] at hnodup
      exact List.nodup_cons.mp hnodup
    rw [dict_preserves_order l (acc ++ [(a.id, a)]) ?hd hnodup'.2]
    · simp
    case hd =>
      intro b hb kv hkv
      rcases List.mem_append.mp hkv with hin | hin
      · exact hdisj b (List.mem_cons_of_mem a hb) kv hin
      · simp at hin
        subst hin
        intro hcontra
        have hcontra' : a.id = b.id := hcontra
        exact hnodup'.1 (hcontra' ▸ List.mem_map_of_mem (fun x => x.id) hb)

/-- C6: the delay scan walks the active rules in stable insertion order (for
snapshot lists with distinct rule ids the dict of `AnomalyEngine.__init__`
preserves the order of active rules), and `apply_delay` returns the base
delay plus the `additional_delay_ms` parameter (default 1000) of the **first**
matching rule that fires — consulting no later rule — and the unchanged base
delay when no matching rule fires. -/
theorem c6_delay_first_match_wins (anomalies : List Anomaly)
    (current_node_id : Int)
    (hids : (anomalies.map (fun a => a.id)).Nodup) :
    anomalyDict anomalies = anomalies.filter (fun a => a.is_active) ∧
    (∀ (rules : List Anomaly) (r : Rand) (base_delay : ℚ) (a : Anomaly),
      specFirstFiringDelayRule rules current_node_id r.draws = some a →
      (apply_delay rules current_node_id base_delay r).1 =
        base_delay + dictGet a.parameters "additional_delay_ms" 1000) ∧
    (∀ (rules : List Anomaly) (r : Rand) (base_delay : ℚ),
      specFirstFiringDelayRule rules current_node_id r.draws = none →
      (apply_delay rules current_node_id base_delay r).1 = base_delay) := by
  refine ⟨?_, ?_, ?_⟩
  · unfold anomalyDict
    have hsub : List.Sublist
        ((anomalies.filter (fun a => a.is_active)).map (fun a => a.id))
        (anomalies.map (fun a => a.id)) :=
      (List.filter_sublist anomalies).map (fun a => a.id)
    rw [dict_preserves_order (anomalies.filter (fun a => a.is_active)) []
      (by intro a _ kv hkv; simp at hkv) (hids.sublist hsub)]
    have hcomp : ((fun kv : Int × Anomaly => kv.2) ∘ fun a : Anomaly => (a.id, a))
        = fun a => a := rfl
    simp only [List.nil_append, List.map_map, hcomp, List.map_id']
  · intro rules r base_delay a ha
    exact (apply_delay_spec current_node_id rules r base_delay).1 a ha
  · intro rules r base_delay ha
    exact (apply_delay_spec current_node_id rules r base_delay).2 ha

/-- C6 witness: with two active delay rules (ids 1 and 2), the dict preserves
their order; rule A (probability 0) does not fire on draw 5, rule B
(probability 1) fires on draw 0 and adds its 500 ms parameter to base 7. -/
theorem c6_delay_first_match_wins_witness :
    anomalyDict [delayRuleA, delayRuleB] =
      [delayRuleA, delayRuleB].filter (fun a => a.is_active) ∧
    (apply_delay (anomalyDict [delayRuleA, delayRuleB]) 5 7
        { draws := [5, 0], choices := [] }).1 =
      7 + dictGet delayRuleB.parameters "additional_delay_ms" 1000 :=
  ⟨(c6_delay_first_match_wins [delayRuleA, delayRuleB] 5 (by decide)).1,
   (c6_delay_first_match_wins [delayRuleA, delayRuleB] 5 (by decide)).2.1
     (anomalyDict [delayRuleA, delayRuleB]) { draws := [5, 0], choices := [] } 7
     delayRuleB (by decide)⟩

theorem mem_neighborsAux (u v : Int) :
    ∀ es : List (Int × Int × EdgeAttrs),
      v ∈ es.foldr (fun e acc =>
        if e.1 = u then e.2.1 :: acc
        else if e.2.1 = u then e.1 :: acc else acc) [] ↔
      ∃ e ∈ es, (e.1 = u ∧ e.2.1 = v) ∨ (e.1 = v ∧ e.2.1 = u) := by
  intro es
  induction es with
  | nil => simp
  | cons e es ih =>
    rw [List.foldr_cons]
    by_cases h1 : e.1 = u
    · rw [if_pos h1]
      constructor
      · intro hv
        rcases List.mem_cons.mp hv with rfl | hv2
        · exact ⟨e, List.mem_cons_self e es, Or.inl ⟨h1, rfl⟩⟩
        · obtain ⟨e', he', hcond⟩ := ih.mp hv2
          exact ⟨e', List.mem_cons_of_mem e he', hcond⟩
      · rintro ⟨e', he', hcond⟩
        rcases List.mem_cons.mp he' with rfl | he2
        · rcases hcond with ⟨_, hb⟩ | ⟨ha, hb⟩
          · rw [← hb]
            exact List.mem_cons_self _ _
          · have hvu : v = u := h1 ▸ ha.symm ▸ rfl
            rw [← hb] at hvu ⊢
            exact hvu ▸ List.mem_cons_self _ _
        · exact List.mem_cons_of_mem _ (ih.mpr ⟨e', he2, hcond⟩)
    · by_cases h2 : e.2.1 = u
      · rw [if_neg h1, if_pos h2]
        constructor
        · intro hv
          rcases List.mem_cons.mp hv with rfl | hv2
          · exact ⟨e, List.mem_cons_self e es, Or.inr ⟨rfl, h2⟩⟩
          · obtain ⟨e', he', hcond⟩ := ih.mp hv2
            exact ⟨e', List.mem_cons_of_mem e he', hcond⟩
        · rintro ⟨e', he', hcond⟩
          rcases List.mem_cons.mp he' with rfl | he2
          · rcases hcond with ⟨ha, _⟩ | ⟨ha, _⟩
            · exact absurd ha h1
            · rw [← ha]
              exact List.mem_cons_self _ _
          · exact List.mem_cons_of_mem _ (ih.mpr ⟨e', he2, hcond⟩)
      · rw [if_neg h1, if_neg h2]
        constructor
        · intro hv
          obtain ⟨e', he', hcond⟩ := ih.mp hv
          exact ⟨e', List.mem_cons_of_mem e he', hcond⟩
        · rintro ⟨e', he', hcond⟩
          rcases List.mem_cons.mp he' with rfl | he2
          · rcases hcond with ⟨ha, _⟩ | ⟨_, hb⟩
            · exact absurd ha h1
            · exact absurd hb h2
          · exact ih.mpr ⟨e', he2, hcond⟩

theorem hasEdgePair_iff (es : List (Int × Int × EdgeAttrs)) (u v : Int) :
    hasEdgePair es u v = true ↔
      ∃ e ∈ es, (e.1 = u ∧ e.2.1 = v) ∨ (e.1 = v ∧ e.2.1 = u) := by
  unfold hasEdgePair
  rw [List.any_eq_true]
  constructor
  · rintro ⟨e, he, hcond⟩
    exact ⟨e, he, by simpa using hcond⟩
  · rintro ⟨e, he, hcond⟩
    exact ⟨e, he, by simpa using hcond⟩

theorem mem_neighbors_hasEdge (g : Graph) (u v : Int) :
    v ∈ neighbors g u ↔ hasEdgePair g.edgeList u v = true := by
  rw [hasEdgePair_iff]
  exact mem_neighborsAux u v g.edgeList

theorem pathsAux_sound (g : Graph) (dst : Int) :
    ∀ (fuel : Nat) (cur : Int) (visited : List Int) (p : List Int),
      cur ∉ visited → p ∈ pathsAux g dst cur visited fuel →
      p.head? = some cur ∧ p.getLast? = some dst ∧ p.Nodup ∧
      (∀ x ∈ p, x ∉ visited) ∧
      List.Chain' (fun a b => hasEdgePair g.edgeList a b = true) p ∧
      p.length ≤ fuel + 1 := by
  intro fuel
  induction fuel with
  | zero =>
    intro cur visited p hcur hp
    unfold pathsAux at hp
    split at hp
    · next heq =>
      simp only [List.mem_singleton] at hp
      subst hp
      subst heq
      refine ⟨rfl, rfl, by simp, ?_, by simp, by simp⟩
      intro x hx
      simp only [List.mem_singleton] at hx
      subst hx
      exact hcur
    · simp at hp
  | succ n ih =>
    intro cur visited p hcur hp
    unfold pathsAux at hp
    split at hp
    · next heq =>
      simp only [List.mem_singleton] at hp
      subst hp
      subst heq
      refine ⟨rfl, rfl, by simp, ?_, by simp, by simp⟩
      intro x hx
      simp only [List.mem_singleton] at hx
      subst hx
      exact hcur
    · rw [List.mem_flatMap] at hp
      obtain ⟨v, hvmem, hpmap⟩ := hp
      rw [List.mem_map] at hpmap
      obtain ⟨q, hq, rfl⟩ := hpmap
      rw [List.mem_filter] at hvmem
      obtain ⟨hvnb, hvpred⟩ := hvmem
      have hvv : ¬ v ∈ visited ∧ ¬ v = cur := by simpa using hvpred
      have hvnotin : v ∉ cur :: visited := by
        intro hmem
        rcases List.mem_cons.mp hmem with h | h
        · exact hvv.2 h
        · exact hvv.1 h
      obtain ⟨hhead, hlast, hnodup, hdisj, hchain, hlen⟩ :=
        ih v (cur :: visited) q hvnotin hq
      obtain ⟨b, q', rfl⟩ : ∃ b q', q = b :: q' := by
        cases q with
        | nil => simp at hhead
        | cons b q' => exact ⟨b, q', rfl⟩
      have hb : b = v := by simpa using hhead
      subst hb
      refine ⟨rfl, ?_, ?_, ?_, ?_, ?_⟩
      · rw [List.getLast?_cons_cons]
        exact hlast
      · rw [List.nodup_cons]
        refine ⟨?_, hnodup⟩
        intro hcontra
        exact (hdisj cur hcontra) (List.mem_cons_self cur visited)
      · intro x hx
        rcases List.mem_cons.mp hx with rfl | hx2
        · exact hcur
        · intro hxv
          exact hdisj x hx2 (List.mem_cons_of_mem _ hxv)
      · rw [List.chain'_cons]
        exact ⟨(mem_neighbors_hasEdge g cur b).mp hvnb, hchain⟩
      · simp only [List.length_cons] at hlen ⊢
        omega

theorem find_all_paths_spec (g : Graph) (s d : Int) :
    (find_all_paths g s d).length ≤ 3 ∧
    List.Sorted (fun p q : List Int => p.length ≤ q.length) (find_all_paths g s d) ∧
    ∀ p ∈ find_all_paths g s d,
      p.head? = some s ∧ p.getLast? = some d ∧ p.Nodup ∧
      List.Chain' (fun a b => hasEdgePair g.edgeList a b = true) p ∧
      p.length ≤ 11 := by
  unfold find_all_paths
  split
  · have hsorted := List.sorted_insertionSort
      (fun p q : List Int => p.length ≤ q.length) (pathsAux g d s [] 10)
    refine ⟨List.length_take_le _ _, hsorted.sublist (List.take_sublist _ _), ?_⟩
    intro p hp
    have hp1 : p ∈ (pathsAux g d s [] 10).insertionSort
        (fun p q : List Int => p.length ≤ q.length) :=
      List.take_subset _ _ hp
    rw [List.mem_insertionSort] at hp1
    obtain ⟨hhead, hlast, hnodup, _, hchain, hlen⟩ :=
      pathsAux_sound g d 10 s [] p (by simp) hp1
    exact ⟨hhead, hlast, hnodup, hchain, hlen⟩
  · simp

/-- C4: routing returns at most 3 simple paths (each with at most 10 hops,
i.e. 11 nodes, joining the message's endpoints by edges, with no repeated
node), sorted ascending by length; when the list is empty the walker emits
exactly the single `packet_failed` event with reason "No path available" and
nothing else for that message; otherwise it chooses the first (a shortest)
returned path and emits `packet_sent` carrying that path and the packet
size. -/
theorem c4_routing_and_send (g : Graph) (msg : Message) (rules : List Anomaly)
    (alive : Nat → Bool) (r : Rand) :
    (find_all_paths g msg.source_node_id msg.destination_node_id).length ≤ 3 ∧
    List.Sorted (fun p q : List Int => p.length ≤ q.length)
      (find_all_paths g msg.source_node_id msg.destination_node_id) ∧
    (∀ p ∈ find_all_paths g msg.source_node_id msg.destination_node_id,
      p.head? = some msg.source_node_id ∧
      p.getLast? = some msg.destination_node_id ∧ p.Nodup ∧
      List.Chain' (fun a b => hasEdgePair g.edgeList a b = true) p ∧
      p.length ≤ 11) ∧
    (find_all_paths g msg.source_node_id msg.destination_node_id = [] →
      (simulate_message g rules msg alive r).1 =
        [Event.packet_failed msg.id "No path available"]) ∧
    (∀ chosen rest,
      find_all_paths g msg.source_node_id msg.destination_node_id
        = chosen :: rest →
      (∃ evs, (simulate_message g rules msg alive r).1 =
        Event.packet_sent msg.id msg.source_node_id msg.destination_node_id
          chosen msg.packet_size_bytes :: evs) ∧
      ∀ q ∈ find_all_paths g msg.source_node_id msg.destination_node_id,
        chosen.length ≤ q.length) := by
  obtain ⟨hlen3, hsorted, hmem⟩ :=
    find_all_paths_spec g msg.source_node_id msg.destination_node_id
  refine ⟨hlen3, hsorted, hmem, ?_, ?_⟩
  · intro hnil
    simp only [simulate_message, hnil]
  · intro chosen rest heq
    constructor
    · simp only [simulate_message, heq]
      split
      · exact ⟨_, rfl⟩
      · exact ⟨_, rfl⟩
    · intro q hq
      rw [heq] at hsorted hq
      rcases List.mem_cons.mp hq with rfl | hq2
      · exact le_refl _
      · exact List.rel_of_sorted_cons hsorted q hq2

/-- C4 witness: on the 3-node chain the A→C message gets the single returned
path [1, 2, 3]; the walk starts with `packet_sent` carrying it, and it is
shortest among the returned paths. -/
theorem c4_routing_and_send_witness :
    (∃ evs, (simulate_message gChain3 [] (mkMsg 7 1 3) (fun _ => true)
        { draws := [], choices := [] }).1 =
      Event.packet_sent (mkMsg 7 1 3).id (mkMsg 7 1 3).source_node_id
        (mkMsg 7 1 3).destination_node_id [1, 2, 3]
        (mkMsg 7 1 3).packet_size_bytes :: evs) ∧
    ∀ q ∈ find_all_paths gChain3 (mkMsg 7 1 3).source_node_id
        (mkMsg 7 1 3).destination_node_id,
      ([1, 2, 3] : List Int).length ≤ q.length :=
  (c4_routing_and_send gChain3 (mkMsg 7 1 3) [] (fun _ => true)
    { draws := [], choices := [] }).2.2.2.2 [1, 2, 3] [] (by decide)

theorem hasEdgePair_update (es : List (Int × Int × EdgeAttrs)) (u v x y : Int)
    (a : EdgeAttrs) (h : hasEdgePair es x y = true) :
    hasEdgePair (es.map (fun e =>
      if (e.1 = u ∧ e.2.1 = v) ∨ (e.1 = v ∧ e.2.1 = u)
      then (e.1, e.2.1, a) else e)) x y = true := by
  unfold hasEdgePair at h ⊢
  rw [List.any_eq_true] at h ⊢
  obtain ⟨e, he, hcond⟩ := h
  refine ⟨if (e.1 = u ∧ e.2.1 = v) ∨ (e.1 = v ∧ e.2.1 = u)
    then (e.1, e.2.1, a) else e, List.mem_map_of_mem _ he, ?_⟩
  split <;> simpa using hcond

theorem hasEdgePair_addEdge_of (g : Graph) (u v x y : Int) (a : EdgeAttrs)
    (h : hasEdgePair g.edgeList x y = true) :
    hasEdgePair (addEdge g u v a).edgeList x y = true := by
  unfold addEdge
  simp only
  split
  · exact hasEdgePair_update g.edgeList u v x y a h
  · unfold hasEdgePair at h ⊢
    rw [List.any_eq_true] at h ⊢
    obtain ⟨e, he, hcond⟩ := h
    exact ⟨e, List.mem_append_left _ he, hcond⟩

theorem hasEdgePair_addEdge_self (g : Graph) (u v : Int) (a : EdgeAttrs) :
    hasEdgePair (addEdge g u v a).edgeList u v = true := by
  unfold addEdge
  simp only
  split
  · next hhas => exact hasEdgePair_update g.edgeList u v u v a hhas
  · unfold hasEdgePair
    rw [List.any_eq_true]
    refine ⟨(u, v, a), List.mem_append_right _ (List.mem_singleton_self _), ?_⟩
    simp

theorem mem_addNodeId_self (l : List Int) (i : Int) : i ∈ addNodeId l i := by
  unfold addNodeId
  split
  · assumption
  · exact List.mem_append_right _ (List.mem_singleton_self _)

theorem mem_addNodeId_of_mem (l : List Int) (i j : Int) (h : j ∈ l) :
    j ∈ addNodeId l i := by
  unfold addNodeId
  split
  · exact h
  · exact List.mem_append_left _ h

theorem addEdge_endpoints_mem (g : Graph) (u v : Int) (a : EdgeAttrs) :
    u ∈ (addEdge g u v a).nodeIds ∧ v ∈ (addEdge g u v a).nodeIds := by
  unfold addEdge
  exact ⟨mem_addNodeId_of_mem _ _ _ (mem_addNodeId_self g.nodeIds u),
    mem_addNodeId_self _ v⟩

theorem connStep_hasEdge_mono (g : Graph) (c : Connection) (x y : Int)
    (h : hasEdgePair g.edgeList x y = true) :
    hasEdgePair ((connStep g c).edgeList) x y = true := by
  unfold connStep
  split
  · exact hasEdgePair_addEdge_of _ _ _ _ _ _ h
  · exact h

theorem connStep_nodeIds_mono (g : Graph) (c : Connection) (x : Int)
    (h : x ∈ g.nodeIds) : x ∈ (connStep g c).nodeIds := by
  unfold connStep
  split
  · unfold addEdge
    exact mem_addNodeId_of_mem _ _ _ (mem_addNodeId_of_mem _ _ _ h)
  · exact h

theorem connFold_hasEdge_mono : ∀ (l : List Connection) (g : Graph) (x y : Int),
    hasEdgePair g.edgeList x y = true →
    hasEdgePair ((l.foldl connStep g).edgeList) x y = true
  | [], _, _, _, h => h
  | c :: cs, g, x, y, h => by
    rw [List.foldl_cons]
    exact connFold_hasEdge_mono cs _ x y (connStep_hasEdge_mono g c x y h)

theorem connFold_nodeIds_mono : ∀ (l : List Connection) (g : Graph) (x : Int),
    x ∈ g.nodeIds → x ∈ (l.foldl connStep g).nodeIds
  | [], _, _, h => h
  | c :: cs, g, x, h => by
    rw [List.foldl_cons]
    exact connFold_nodeIds_mono cs _ x (connStep_nodeIds_mono g c x h)

theorem connFold_active : ∀ (l : List Connection) (g : Graph) (c : Connection),
    c ∈ l → c.status = "active" →
    hasEdgePair ((l.foldl connStep g).edgeList)
      c.source_node_id c.destination_node_id = true ∧
    c.source_node_id ∈ (l.foldl connStep g).nodeIds ∧
    c.destination_node_id ∈ (l.foldl connStep g).nodeIds
  | c' :: cs, g, c, hc, hact => by
    rw [List.foldl_cons]
    rcases List.mem_cons.mp hc with rfl | hmem
    · have hstep : connStep g c = addEdge g c.source_node_id c.destination_node_id
          { connection_id := c.id, bandwidth := c.bandwidth_mbps,
            latency := c.latency_ms, connection_type := c.connection_type } := by
        unfold connStep
        rw [if_pos hact]
      rw [hstep]
      refine ⟨connFold_hasEdge_mono cs _ _ _ (hasEdgePair_addEdge_self _ _ _ _),
        connFold_nodeIds_mono cs _ _ (addEdge_endpoints_mem _ _ _ _).1,
        connFold_nodeIds_mono cs _ _ (addEdge_endpoints_mem _ _ _ _).2⟩
    · exact connFold_active cs _ c hmem hact

theorem connFold_attrs : ∀ (l : List Connection) (g : Graph),
    (l.foldl connStep g).attrs = g.attrs
  | [], _ => rfl
  | c :: cs, g => by
    rw [List.foldl_cons, connFold_attrs cs]
    unfold connStep
    split <;> rfl

theorem nodeFold_attrs_keys : ∀ (ns : List Node) (g : Graph)
    (kv : Int × NodeAttrs),
    kv ∈ (ns.foldl nodeStep g).attrs → kv.1 ∈ ns.map (fun n => n.id) ∨ kv ∈ g.attrs
  | [], _, _, h => Or.inr h
  | n :: ns, g, kv, h => by
    rw [List.foldl_cons] at h
    rcases nodeFold_attrs_keys ns _ kv h with h1 | h2
    · exact Or.inl (List.mem_cons_of_mem _ h1)
    · unfold nodeStep addNode at h2
      simp only at h2
      split at h2
      · rw [List.mem_map] at h2
        obtain ⟨kv', hkv', heq⟩ := h2
        by_cases hk : kv'.1 = n.id
        · rw [if_pos hk] at heq
          subst heq
          exact Or.inl (List.mem_cons_self _ _)
        · rw [if_neg hk] at heq
          subst heq
          exact Or.inr hkv'
      · rcases List.mem_append.mp h2 with h3 | h3
        · exact Or.inr h3
        · simp only [List.mem_singleton] at h3
          subst h3
          exact Or.inl (List.mem_cons_self _ _)

theorem get_connection_info_ne_none (g : Graph) (x y : Int)
    (h : hasEdgePair g.edgeList x y = true) :
    get_connection_info g x y ≠ none := by
  intro hcontra
  unfold get_connection_info at hcontra
  cases hf : g.edgeList.find?
      (fun e => (e.1 == x && e.2.1 == y) || (e.1 == y && e.2.1 == x)) with
  | some e' =>
    rw [hf] at hcontra
    exact Option.noConfusion hcontra
  | none =>
    rw [List.find?_eq_none] at hf
    unfold hasEdgePair at h
    rw [List.any_eq_true] at h
    obtain ⟨e, he, hcond⟩ := h
    exact hf e he hcond

theorem pathsAux_self (g : Graph) (dst : Int) (visited : List Int) :
    ∀ fuel, pathsAux g dst dst visited fuel = [[dst]] := by
  intro fuel
  cases fuel <;> simp [pathsAux]

theorem pathsAux_pair_nonempty (g : Graph) (u v : Int) (fuel : Nat)
    (hne : hasEdgePair g.edgeList u v = true) :
    pathsAux g v u [] (fuel + 1) ≠ [] := by
  by_cases huv : u = v
  · subst huv
    rw [pathsAux_self]
    simp
  · apply List.ne_nil_of_mem (a := u :: [v])
    unfold pathsAux
    rw [if_neg huv]
    rw [List.mem_flatMap]
    refine ⟨v, ?_, ?_⟩
    · rw [List.mem_filter]
      refine ⟨(mem_neighbors_hasEdge g u v).mpr hne, ?_⟩
      simp [huv]
      intro hcontra
      exact huv hcontra.symm
    · rw [List.mem_map]
      exact ⟨[v], by rw [pathsAux_self]; simp, rfl⟩

theorem find_all_paths_pair_nonempty (g : Graph) (u v : Int)
    (hu : u ∈ g.nodeIds) (hv : v ∈ g.nodeIds)
    (hne : hasEdgePair g.edgeList u v = true) :
    find_all_paths g u v ≠ [] := by
  unfold find_all_paths
  rw [if_pos ⟨hu, hv⟩]
  intro hcontra
  have hsortnil : (pathsAux g v u [] 10).insertionSort
      (fun p q : List Int => p.length ≤ q.length) = [] := by
    rcases List.take_eq_nil_iff.mp hcontra with h3 | hs
    · exact absurd h3 (by decide)
    · exact hs
  have hnil : pathsAux g v u [] 10 = [] := by
    have hperm := List.perm_insertionSort
      (fun p q : List Int => p.length ≤ q.length) (pathsAux g v u [] 10)
    rw [hsortnil] at hperm
    exact (hperm.nil_eq).symm
  exact pathsAux_pair_nonempty g u v 9 hne hnil

/-- C10: for every active connection with an endpoint id absent from the node
snapshot list, `build_from_session_data` still inserts that endpoint as a
vertex (with no name/type/status/position attributes) together with its edge,
so the unknown endpoint is reachable and routable: edge info for the pair is
present and the path query between the connection's endpoints is nonempty. -/
theorem c10_unknown_endpoint_routable (nodes : List Node)
    (connections : List Connection) (c : Connection) (x : Int)
    (hc : c ∈ connections) (hact : c.status = "active")
    (hx : x = c.source_node_id ∨ x = c.destination_node_id)
    (hmiss : x ∉ nodes.map (fun n => n.id)) :
    x ∈ (build_from_session_data nodes connections).nodeIds ∧
    (build_from_session_data nodes connections).attrs.find?
      (fun kv => kv.1 == x) = none ∧
    get_connection_info (build_from_session_data nodes connections)
      c.source_node_id c.destination_node_id ≠ none ∧
    find_all_paths (build_from_session_data nodes connections)
      c.source_node_id c.destination_node_id ≠ [] := by
  have hfold := connFold_active connections
    (nodes.foldl nodeStep { nodeIds := [], attrs := [], edgeList := [] }) c hc hact
  refine ⟨?_, ?_, ?_, ?_⟩
  · unfold build_from_session_data
    rcases hx with rfl | rfl
    · exact hfold.2.1
    · exact hfold.2.2
  · rw [List.find?_eq_none]
    intro kv hkv
    simp only [beq_iff_eq]
    intro hcontra
    unfold build_from_session_data at hkv
    rw [connFold_attrs] at hkv
    rcases nodeFold_attrs_keys nodes _ kv hkv with h1 | h2
    · exact hmiss (hcontra ▸ h1)
    · simp at h2
  · exact get_connection_info_ne_none _ _ _ hfold.1
  · exact find_all_paths_pair_nonempty _ _ _ hfold.2.1 hfold.2.2 hfold.1

/-- C10 witness: node snapshot [1] and an active connection 5–1; the unknown
endpoint 5 becomes an attribute-less, routable vertex. -/
theorem c10_unknown_endpoint_routable_witness :
    (5 : Int) ∈ (build_from_session_data [mkNode 1] [mkConn 9 5 1]).nodeIds ∧
    (build_from_session_data [mkNode 1] [mkConn 9 5 1]).attrs.find?
      (fun kv => kv.1 == 5) = none ∧
    get_connection_info (build_from_session_data [mkNode 1] [mkConn 9 5 1])
      (mkConn 9 5 1).source_node_id (mkConn 9 5 1).destination_node_id ≠ none ∧
    find_all_paths (build_from_session_data [mkNode 1] [mkConn 9 5 1])
      (mkConn 9 5 1).source_node_id (mkConn 9 5 1).destination_node_id ≠ [] :=
  c10_unknown_endpoint_routable [mkNode 1] [mkConn 9 5 1] (mkConn 9 5 1) 5
    (List.mem_singleton_self _) rfl (Or.inl rfl) (by decide)

end Pulse
